import Mathlib

/-!
Verification of the insiderwatch backtest core: a shallow embedding of
`backtest/build_signals.py` (the first-cross signal detector),
`backtest/evaluate.py` (the forward-return evaluator) and the Form 4
parser of `backtest/insider_scanner.py`, together with theorems about
the window semantics, signal ordering, return formulas and error
handling of those functions.

Modelling conventions: timestamps and session dates are integers (the
code compares pandas timestamps, which are totally ordered; the window
length is expressed in the same unit), monetary values are rationals
(the code uses floats; an `amount_usd` cell that pandas `to_numeric`
coerced to NaN is modelled as `none`), and a dataframe is a list of
rows.  String comparison is code-point lexicographic, as in Python.
-/

set_option maxRecDepth 8000

/-- A raw `amount_usd` cell that is not null: either a numeric value, or
present-but-non-numeric text (which `pd.to_numeric(errors="coerce")`
later turns into NaN). -/
inductive NumCell where
  | num (q : ℚ)
  | text
deriving DecidableEq

/-- `pd.to_numeric(..., errors="coerce")` on one non-null cell: numeric
values survive, non-numeric text becomes NaN (`none`). -/
def NumCell.toNumeric : NumCell → Option ℚ
  | num q => some q
  | text => none

/-- One row of the trades dataframe read by `first_cross_events`.
`none` in an `Option` field models a null (NaN/NaT) cell; `filing_dt`
is the already-`to_datetime`-coerced timestamp (`none` = NaT). -/
structure Row where
  symbol : Option String
  owner : Option String
  filing_dt : Option Int
  amount_usd : Option NumCell
  tenb5 : Bool
deriving DecidableEq

/-- A cleaned trade event: all of `symbol`, `_t`, `amount_usd`, `owner`
were non-null, and `amount_usd` has been through numeric coercion
(`none` = NaN). -/
structure Event where
  symbol : String
  owner : String
  t : Int
  amount : Option ℚ
deriving DecidableEq

/-- The keyword arguments of `first_cross_events`. -/
structure Config where
  window_days : Int
  min_owners : Nat
  min_usd : ℚ
  exclude_10b5 : Bool

/-- One emitted signal row `{symbol, t0, owners_count, total_usd}`. -/
structure Signal where
  symbol : String
  t0 : Int
  owners_count : Nat
  total_usd : ℚ
deriving DecidableEq

/-- The row-filtering prefix of `first_cross_events`: the `tenb5`
exclusion (applied first, when configured), then
`dropna(subset=["symbol","_t","amount_usd","owner"])`, then
`pd.to_numeric` on `amount_usd`. -/
def cleanRows (cfg : Config) (rows : List Row) : List Event :=
  let kept := if cfg.exclude_10b5 then rows.filter (fun r => !r.tenb5) else rows
  kept.filterMap (fun r =>
    match r.symbol, r.filing_dt, r.amount_usd, r.owner with
    | some s, some t, some a, some o => some ⟨s, o, t, a.toNumeric⟩
    | _, _, _, _ => none)

/-- Code-point lexicographic strict comparison of strings (Python's
`<` on `str`), on the underlying character lists. -/
def strLtB : List Char → List Char → Bool
  | [], [] => false
  | [], _ :: _ => true
  | _ :: _, [] => false
  | a :: as, b :: bs => if a < b then true else if b < a then false else strLtB as bs

/-- The sort key order of `df.sort_values(["symbol","_t"])`: by symbol,
ties broken by timestamp. -/
def rowLeB (a b : Event) : Bool :=
  strLtB a.symbol.data b.symbol.data || (decide (a.symbol = b.symbol) && decide (a.t ≤ b.t))

/-- Propositional form of `rowLeB`. -/
def rowLe (a b : Event) : Prop := rowLeB a b = true

instance : DecidableRel rowLe := fun _ _ => instDecidableEqBool _ _

/-- `df.sort_values(["symbol","_t"])` (a stable sort on the key pair). -/
def sortEvents (l : List Event) : List Event := List.insertionSort rowLe l

/-- The rows of one symbol's group `g` (pandas `groupby("symbol")`). -/
def symEvents (l : List Event) (sym : String) : List Event :=
  l.filter (fun e => decide (e.symbol = sym))

/-- The current window `w`: events of the group with
`t0 - window <= _t <= t0` (closed on both ends). -/
def windowEvents (g : List Event) (t0 W : Int) : List Event :=
  g.filter (fun e => decide (t0 - W ≤ e.t) && decide (e.t ≤ t0))

/-- The previous window `w_prev`: events of the group with
`t0 - window <= _t < t0` (right-open). -/
def prevWindowEvents (g : List Event) (t0 W : Int) : List Event :=
  g.filter (fun e => decide (t0 - W ≤ e.t) && decide (e.t < t0))

/-- `w["owner"].nunique()`: the number of distinct owners. -/
def owners_count (w : List Event) : Nat := (w.map Event.owner).toFinset.card

/-- `w["amount_usd"].sum()`: the NaN-skipping sum of the amounts
(an empty or all-NaN column sums to 0). -/
def total_usd (w : List Event) : ℚ := (w.map (fun e => e.amount.getD 0)).sum

/-- `crossed_now` at reference time `t0` over group `g`. -/
def crossedNow (cfg : Config) (g : List Event) (t0 : Int) : Bool :=
  decide (cfg.min_owners ≤ owners_count (windowEvents g t0 cfg.window_days)) &&
  decide (cfg.min_usd ≤ total_usd (windowEvents g t0 cfg.window_days))

/-- `crossed_prev` at reference time `t0` over group `g`. -/
def crossedPrev (cfg : Config) (g : List Event) (t0 : Int) : Bool :=
  decide (cfg.min_owners ≤ owners_count (prevWindowEvents g t0 cfg.window_days)) &&
  decide (cfg.min_usd ≤ total_usd (prevWindowEvents g t0 cfg.window_days))

/-- The body of the per-row loop of `first_cross_events`: emit a signal
for `row` iff `crossed_now and not crossed_prev`. -/
def crossSignal (cfg : Config) (l : List Event) (row : Event) : Option Signal :=
  let g := symEvents l row.symbol
  if crossedNow cfg g row.t && !crossedPrev cfg g row.t then
    some ⟨row.symbol, row.t, owners_count (windowEvents g row.t cfg.window_days),
          total_usd (windowEvents g row.t cfg.window_days)⟩
  else none

/-- `first_cross_events` of `backtest/build_signals.py`: filter and
coerce the rows, sort by `(symbol, _t)`, then scan every row of every
symbol group in order and emit a signal at each first cross.  (The
`groupby` over the sorted frame visits exactly the rows of the sorted
list in order, each with its own symbol's group, so the loop is a
`filterMap` over the sorted list.) -/
def first_cross_events (cfg : Config) (rows : List Row) : List Signal :=
  let l := sortEvents (cleanRows cfg rows)
  l.filterMap (crossSignal cfg l)

/-- The current window of symbol `sym` at reference time `t0`, as
computed inside `first_cross_events`. -/
def symbolWindow (cfg : Config) (rows : List Row) (sym : String) (t0 : Int) : List Event :=
  windowEvents (symEvents (sortEvents (cleanRows cfg rows)) sym) t0 cfg.window_days

/-- The previous window of symbol `sym` at reference time `t0`, as
computed inside `first_cross_events`. -/
def symbolPrevWindow (cfg : Config) (rows : List Row) (sym : String) (t0 : Int) : List Event :=
  prevWindowEvents (symEvents (sortEvents (cleanRows cfg rows)) sym) t0 cfg.window_days

/-- Ascending order on signals by the pair `(event_time, symbol)`:
earlier time first, ties broken by code-point order on the symbol. -/
def sigTimeLeB (a b : Signal) : Bool :=
  decide (a.t0 < b.t0) ||
  (decide (a.t0 = b.t0) && (strLtB a.symbol.data b.symbol.data || decide (a.symbol = b.symbol)))

/-- Propositional form of `sigTimeLeB`. -/
def sigTimeLe (a b : Signal) : Prop := sigTimeLeB a b = true

instance : DecidableRel sigTimeLe := fun _ _ => instDecidableEqBool _ _

/-- Ascending order on signals by the pair `(symbol, event_time)`:
code-point order on the symbol first, ties broken by time. -/
def sigSymLeB (a b : Signal) : Bool :=
  strLtB a.symbol.data b.symbol.data || (decide (a.symbol = b.symbol) && decide (a.t0 ≤ b.t0))

/-- Propositional form of `sigSymLeB`. -/
def sigSymLe (a b : Signal) : Prop := sigSymLeB a b = true

instance : DecidableRel sigSymLe := fun _ _ => instDecidableEqBool _ _

/-- One row of the daily price frame: `(session_date, Open, Adj Close)`. -/
structure Session where
  session_date : Int
  openPrice : ℚ
  adjClose : ℚ
deriving DecidableEq

/-- A default session used only as the (never-reached) `List.getD`
fallback. -/
def dfltSession : Session := ⟨0, 0, 0⟩

/-- `next_trading_open` of `backtest/evaluate.py`:
`np.searchsorted(days, d, side="right")` on the ascending session dates
returns the first position whose date is strictly after `d`, and the
function returns `None` when that position is past the end of the
series.  Modelled (for sorted series) as `findIdx?` of the first
strictly-later session, returning the position. -/
def next_trading_open (px : List Session) (d : Int) : Option Nat :=
  px.findIdx? (fun s => decide (d < s.session_date))

/-- `returns_at` of `backtest/evaluate.py`: for each horizon `h`, if
`entry position + h` is past the end of the series the return is NaN
(`none`); otherwise it is `Adj Close` at the exit session over `Open`
at the entry session, minus 1. -/
def returns_at (px : List Session) (pos : Nat) (horizons : List Nat) : List (Nat × Option ℚ) :=
  horizons.map (fun h =>
    if pos + h < px.length then
      (h, some ((px.getD (pos + h) dfltSession).adjClose / (px.getD pos dfltSession).openPrice - 1))
    else (h, none))

/-- One per-signal result row assembled in `evaluate.main`. -/
structure EvalRow where
  symbol : String
  t0 : Int
  entry_idx : Nat
  rets : List (Nat × Option ℚ)
deriving DecidableEq

/-- The per-signal body of the loop in `evaluate.main`: a signal whose
date admits no later session (`next_trading_open` returns `None`) is
skipped with `continue`; otherwise a result row is built. -/
def evalSignal (px : List Session) (horizons : List Nat) (s : Signal) : Option EvalRow :=
  match next_trading_open px s.t0 with
  | none => none
  | some pos => some ⟨s.symbol, s.t0, pos, returns_at px pos horizons⟩

/-- The whole evaluation loop of `evaluate.main` over a signal list
(each signal evaluated against its price series `px`). -/
def evalRows (px : List Session) (horizons : List Nat) (sigs : List Signal) : List EvalRow :=
  sigs.filterMap (evalSignal px horizons)

/-- The net-return column `ev[ret_net] = ev[ret] - cost_bps/10000`
(NaN propagates through the subtraction). -/
def netRet (cost_bps : ℚ) (o : Option ℚ) : Option ℚ := o.map (fun r => r - cost_bps / 10000)

/-- The per-horizon summary printed by `evaluate.main`:
mean, median, hit rate and sample size of the non-missing returns. -/
structure Summary where
  mean : ℚ
  median : ℚ
  hit_rate : ℚ
  n : Nat
deriving DecidableEq

/-- Non-strict order on ℚ as a decidable relation for sorting. -/
def ratLe (a b : ℚ) : Prop := decide (a ≤ b) = true

instance : DecidableRel ratLe := fun _ _ => instDecidableEqBool _ _

/-- `pd.Series.median()` on a non-empty list: middle element of the
sorted values, or the average of the two middle elements. -/
def medianQ (v : List ℚ) : ℚ :=
  let s := List.insertionSort ratLe v
  if v.length % 2 = 1 then s.getD (v.length / 2) 0
  else ((s.getD (v.length / 2 - 1) 0) + s.getD (v.length / 2) 0) / 2

/-- The summary block of `evaluate.main`: `valid = ev[col].dropna()`,
`"no data"` (`none`) when `valid` is empty, otherwise mean, median,
hit rate `(valid>0).mean()` and `n = len(valid)`. -/
def summarize (vals : List (Option ℚ)) : Option Summary :=
  let v := vals.filterMap id
  if v.length = 0 then none
  else some ⟨v.sum / v.length, medianQ v,
             ((v.filter (fun r => decide (0 < r))).length : ℚ) / v.length, v.length⟩

/-- One `nonDerivativeTransaction` of a Form 4 document, with its
transaction code and the already-parsed `value` nodes of
`transactionShares` and `transactionPricePerShare` (`none` = missing or
unparseable, which `to_float` turns into `0.0`). -/
structure Form4Txn where
  code : String
  shares : Option ℚ
  price : Option ℚ
  txn_date : String
deriving DecidableEq

/-- The parts of a Form 4 ownership document read by
`parse_form4_xml`: issuer symbol, the `rptOwnerName` list, whether the
text mentions 10b5-1, and the non-derivative transactions. -/
structure Form4Doc where
  symbol : Option String
  owners : List String
  has10b5 : Bool
  txns : List Form4Txn
deriving DecidableEq

/-- One output record of `parse_form4_xml`. -/
structure TradeRec where
  symbol : Option String
  owner : String
  shares : ℚ
  price : ℚ
  amount_usd : ℚ
  tenb5 : Bool
  txn_date : String
deriving DecidableEq

/-- `code.text.strip().upper() == "P"` on an already-stripped code. -/
def isPurchaseCode (c : String) : Bool := c.data.map Char.toUpper == ['P']

/-- `parse_form4_xml` of `backtest/insider_scanner.py`: owners default
to `["(unknown)"]` when the document names none; every purchase
transaction (`code == "P"`) produces one record per reporting owner,
each carrying the transaction's full `shares`, `price` and
`amount_usd = shares * price`. -/
def parse_form4_xml (doc : Form4Doc) : List TradeRec :=
  let owners := if doc.owners.isEmpty then ["(unknown)"] else doc.owners
  (doc.txns.filter (fun tx => isPurchaseCode tx.code)).flatMap (fun tx =>
    let s := tx.shares.getD 0
    let p := tx.price.getD 0
    owners.map (fun o => ⟨doc.symbol, o, s, p, s * p, doc.has10b5, tx.txn_date⟩))

/-! Concrete inputs used to exercise the definitions. -/

/-- Three buys by three distinct owners of one symbol, following the
shape of the spec's worked clustering scenario (third owner arrives on
day 10 and tips both thresholds). -/
def rowsA : List Row :=
  [⟨some "A", some "u", some 0, some (NumCell.num 4), false⟩,
   ⟨some "A", some "v", some 3, some (NumCell.num 3), false⟩,
   ⟨some "A", some "w", some 10, some (NumCell.num 2), false⟩]

/-- Window 14, at least 3 owners, at least 9 total. -/
def cfgA : Config := ⟨14, 3, 9, true⟩

/-- Three owners of one symbol at times -10, 0 and 5: the day -10 event
ages out of the day-5 window, so the symbol decrosses and recrosses
with no event strictly between the two signals. -/
def rowsC3 : List Row :=
  [⟨some "S", some "a", some (-10), some (NumCell.num 1), false⟩,
   ⟨some "S", some "b", some 0, some (NumCell.num 1), false⟩,
   ⟨some "S", some "c", some 5, some (NumCell.num 1), false⟩]

/-- Window 14, at least 2 owners, at least 2 total. -/
def cfgC3 : Config := ⟨14, 2, 2, true⟩

/-- Two symbols whose single events are each a signal: symbol "B" fires
at time 0 and symbol "A" at time 100. -/
def rows7 : List Row :=
  [⟨some "B", some "x", some 0, some (NumCell.num 1), false⟩,
   ⟨some "A", some "y", some 100, some (NumCell.num 1), false⟩]

/-- Window 14, at least 1 owner, at least 1 total. -/
def cfg7 : Config := ⟨14, 1, 1, true⟩

/-- The spec's evaluator scenario: sessions on days 10, 11 and 15 with
opens 10, 11, 12 and adjusted closes 10.5, 11, 12. -/
def spx : List Session := [⟨10, 10, 21/2⟩, ⟨11, 11, 11⟩, ⟨15, 12, 12⟩]

/-- A two-session price series ending on day 11. -/
def px4 : List Session := [⟨10, 1, 1⟩, ⟨11, 1, 1⟩]

/-- A signal dated on the last session of `px4`. -/
def sig4 : Signal := ⟨"A", 11, 1, 1⟩

/-- Two same-day rows of one symbol, the first with a
present-but-non-numeric `amount_usd` cell. -/
def rows10 : List Row :=
  [⟨some "A", some "u", some 0, some NumCell.text, false⟩,
   ⟨some "A", some "v", some 0, some (NumCell.num 5), false⟩]

/-- A Form 4 document naming two reporting owners with one purchase of
5 shares at price 3. -/
def doc9 : Form4Doc := ⟨some "A", ["a", "b"], false, [⟨"P", some 5, some 3, "d"⟩]⟩

/-! Helper lemmas. -/

theorem strLtB_trans {a b c : List Char} (hab : strLtB a b = true) (hbc : strLtB b c = true) :
    strLtB a c = true := by
  induction a generalizing b c with
  | nil =>
    cases b with
    | nil => simp [strLtB] at hab
    | cons y ys =>
      cases c with
      | nil => simp [strLtB] at hbc
      | cons z zs => simp [strLtB]
  | cons x xs ih =>
    cases b with
    | nil => simp [strLtB] at hab
    | cons y ys =>
      cases c with
      | nil => simp [strLtB] at hbc
      | cons z zs =>
        simp only [strLtB] at hab hbc ⊢
        rcases lt_trichotomy x y with hxy | hxy | hxy
        · rcases lt_trichotomy y z with hyz | hyz | hyz
          · rw [if_pos (lt_trans hxy hyz)]
          · subst hyz; rw [if_pos hxy]
          · rw [if_neg (lt_asymm hyz), if_pos hyz] at hbc
            cases hbc
        · subst hxy
          rw [if_neg (lt_irrefl x), if_neg (lt_irrefl x)] at hab
          rcases lt_trichotomy x z with hxz | hxz | hxz
          · rw [if_pos hxz]
          · subst hxz
            rw [if_neg (lt_irrefl x), if_neg (lt_irrefl x)] at hbc ⊢
            exact ih hab hbc
          · rw [if_neg (lt_asymm hxz), if_pos hxz] at hbc
            cases hbc
        · rw [if_neg (lt_asymm hxy), if_pos hxy] at hab
          cases hab

theorem strLtB_trichotomy (a b : List Char) :
    strLtB a b = true ∨ strLtB b a = true ∨ a = b := by
  induction a generalizing b with
  | nil =>
    cases b with
    | nil => right; right; rfl
    | cons y ys => left; simp [strLtB]
  | cons x xs ih =>
    cases b with
    | nil => right; left; simp [strLtB]
    | cons y ys =>
      rcases lt_trichotomy x y with hxy | hxy | hxy
      · left; simp [strLtB, hxy]
      · subst hxy
        rcases ih ys with h | h | h
        · left; simp [strLtB, lt_irrefl, h]
        · right; left; simp [strLtB, lt_irrefl, h]
        · right; right; rw [h]
      · right; left; simp [strLtB, hxy]

theorem rowLe_iff {a b : Event} :
    rowLe a b ↔ (strLtB a.symbol.data b.symbol.data = true ∨ (a.symbol = b.symbol ∧ a.t ≤ b.t)) := by
  simp [rowLe, rowLeB]

instance : IsTrans Event rowLe := by
  constructor
  intro a b c hab hbc
  rw [rowLe_iff] at hab hbc ⊢
  rcases hab with hab | ⟨hab, hab'⟩
  · rcases hbc with hbc | ⟨hbc, _⟩
    · exact Or.inl (strLtB_trans hab hbc)
    · rw [hbc] at hab; exact Or.inl hab
  · rcases hbc with hbc | ⟨hbc, hbc'⟩
    · rw [← hab] at hbc; exact Or.inl hbc
    · exact Or.inr ⟨hab.trans hbc, hab'.trans hbc'⟩

instance : IsTotal Event rowLe := by
  constructor
  intro a b
  rw [rowLe_iff, rowLe_iff]
  rcases strLtB_trichotomy a.symbol.data b.symbol.data with h | h | h
  · exact Or.inl (Or.inl h)
  · exact Or.inr (Or.inl h)
  · have hsym : a.symbol = b.symbol := String.ext h
    rcases le_total a.t b.t with ht | ht
    · exact Or.inl (Or.inr ⟨hsym, ht⟩)
    · exact Or.inr (Or.inr ⟨hsym.symm, ht⟩)

theorem crossedNow_iff {cfg : Config} {g : List Event} {t0 : Int} :
    crossedNow cfg g t0 = true ↔
    (cfg.min_owners ≤ owners_count (windowEvents g t0 cfg.window_days) ∧
     cfg.min_usd ≤ total_usd (windowEvents g t0 cfg.window_days)) := by
  simp [crossedNow]

theorem crossedPrev_eq_false_iff {cfg : Config} {g : List Event} {t0 : Int} :
    crossedPrev cfg g t0 = false ↔
    ¬(cfg.min_owners ≤ owners_count (prevWindowEvents g t0 cfg.window_days) ∧
      cfg.min_usd ≤ total_usd (prevWindowEvents g t0 cfg.window_days)) := by
  rw [← Bool.not_eq_true, crossedPrev]
  simp [not_and_or]

theorem crossSignal_eq_some {cfg : Config} {l : List Event} {row : Event} {s : Signal} :
    crossSignal cfg l row = some s ↔
    (crossedNow cfg (symEvents l row.symbol) row.t = true ∧
     crossedPrev cfg (symEvents l row.symbol) row.t = false ∧
     s = ⟨row.symbol, row.t,
          owners_count (windowEvents (symEvents l row.symbol) row.t cfg.window_days),
          total_usd (windowEvents (symEvents l row.symbol) row.t cfg.window_days)⟩) := by
  by_cases h : (crossedNow cfg (symEvents l row.symbol) row.t &&
      !crossedPrev cfg (symEvents l row.symbol) row.t) = true
  · rw [Bool.and_eq_true, Bool.not_eq_true'] at h
    simp [crossSignal, h.1, h.2, eq_comm]
  · rw [Bool.and_eq_true, Bool.not_eq_true'] at h
    push_neg at h
    simp only [crossSignal]
    rw [if_neg]
    · constructor
      · intro hfalse; cases hfalse
      · rintro ⟨hnow, hprev, _⟩
        exact absurd hprev (h hnow)
    · rw [Bool.and_eq_true, Bool.not_eq_true']
      rintro ⟨hnow, hprev⟩
      exact absurd hprev (h hnow)

/-! Claim theorems. -/

/-- C1: for every (cleaned) event `e` of a symbol at time `t`,
`first_cross_events` emits a signal at `e` iff the closed current
window `[t - window, t]` of that symbol meets both thresholds while the
right-open previous window `[t - window, t)` does not. -/
theorem detect_signal_iff (cfg : Config) (rows : List Row) (e : Event)
    (he : e ∈ sortEvents (cleanRows cfg rows)) :
    (∃ s ∈ first_cross_events cfg rows, s.symbol = e.symbol ∧ s.t0 = e.t) ↔
    ((cfg.min_owners ≤ owners_count (symbolWindow cfg rows e.symbol e.t) ∧
      cfg.min_usd ≤ total_usd (symbolWindow cfg rows e.symbol e.t)) ∧
     ¬(cfg.min_owners ≤ owners_count (symbolPrevWindow cfg rows e.symbol e.t) ∧
       cfg.min_usd ≤ total_usd (symbolPrevWindow cfg rows e.symbol e.t))) := by
  have hwin : symbolWindow cfg rows e.symbol e.t =
      windowEvents (symEvents (sortEvents (cleanRows cfg rows)) e.symbol) e.t cfg.window_days := rfl
  have hpre : symbolPrevWindow cfg rows e.symbol e.t =
      prevWindowEvents (symEvents (sortEvents (cleanRows cfg rows)) e.symbol) e.t cfg.window_days :=
    rfl
  rw [hwin, hpre]
  constructor
  · rintro ⟨s, hs, hsym, ht0⟩
    simp only [first_cross_events, List.mem_filterMap] at hs
    obtain ⟨row, _, hcs⟩ := hs
    rw [crossSignal_eq_some] at hcs
    obtain ⟨hnow, hprev2, rfl⟩ := hcs
    have hsym' : row.symbol = e.symbol := hsym
    have ht0' : row.t = e.t := ht0
    rw [crossedNow_iff] at hnow
    rw [crossedPrev_eq_false_iff] at hprev2
    rw [hsym', ht0'] at hnow hprev2
    exact ⟨hnow, hprev2⟩
  · rintro ⟨hnow, hprevn⟩
    refine ⟨⟨e.symbol, e.t,
        owners_count (windowEvents (symEvents (sortEvents (cleanRows cfg rows)) e.symbol) e.t
          cfg.window_days),
        total_usd (windowEvents (symEvents (sortEvents (cleanRows cfg rows)) e.symbol) e.t
          cfg.window_days)⟩, ?_, rfl, rfl⟩
    show _ ∈ (sortEvents (cleanRows cfg rows)).filterMap
      (crossSignal cfg (sortEvents (cleanRows cfg rows)))
    rw [List.mem_filterMap]
    exact ⟨e, he,
      crossSignal_eq_some.mpr ⟨crossedNow_iff.mpr hnow, crossedPrev_eq_false_iff.mpr hprevn, rfl⟩⟩

/-- Witness for C1: in the three-owner scenario, the day-10 event is in
the cleaned frame, and a signal is emitted at it. -/
theorem detect_signal_iff_witness :
    Event.mk "A" "w" 10 (some 2) ∈ sortEvents (cleanRows cfgA rowsA) ∧
    (∃ s ∈ first_cross_events cfgA rowsA, s.symbol = "A" ∧ s.t0 = 10) :=
  ⟨by with_unfolding_all decide,
   (detect_signal_iff cfgA rowsA (Event.mk "A" "w" 10 (some 2))
     (by with_unfolding_all decide)).mpr (by with_unfolding_all decide)⟩

/-- C8: `first_cross_events` is deterministic — two calls on equal
inputs return identical signal sequences (the function is pure; the
source also copies its input frame before mutating helper columns). -/
theorem detect_deterministic (cfg : Config) (rows1 rows2 : List Row) (h : rows1 = rows2) :
    first_cross_events cfg rows1 = first_cross_events cfg rows2 := by rw [h]

/-- Witness for C8: the two runs on the concrete scenario agree. -/
theorem detect_deterministic_witness :
    rowsA = rowsA ∧ first_cross_events cfgA rowsA = first_cross_events cfgA rowsA :=
  ⟨rfl, detect_deterministic cfgA rowsA rowsA rfl⟩

/-- Counterexample to C3: with window 14, thresholds (2 owners, 2
total), events by owners a, b, c at times -10, 0, 5, the detector emits
two signals (at 0 and at 5) whose event times are within one window
length, yet no event lies strictly between them — the decross happens
at the second signal's own event (the -10 event aged out), not at an
intervening one. -/
theorem two_signals_without_intervening_decross :
    first_cross_events cfgC3 rowsC3 = [⟨"S", 0, 2, 2⟩, ⟨"S", 5, 2, 2⟩] ∧
    (5 : Int) - (0 : Int) ≤ cfgC3.window_days ∧
    ¬∃ e ∈ sortEvents (cleanRows cfgC3 rowsC3), 0 < e.t ∧ e.t < 5 := by
  with_unfolding_all decide

/-- C3 (amended): two signals of one symbol may fall within one window
length with no intervening decross event; what holds is that every
later signal is itself emitted at an event whose previous-window
evaluation fails the threshold conjunction (the decross may occur at
the later signal's own event). -/
theorem signal_decross_at_later_signal (cfg : Config) (rows : List Row) (s1 s2 : Signal)
    (_h1 : s1 ∈ first_cross_events cfg rows) (h2 : s2 ∈ first_cross_events cfg rows)
    (_hsym : s1.symbol = s2.symbol) (_hlt : s1.t0 < s2.t0) :
    ¬(cfg.min_owners ≤ owners_count (symbolPrevWindow cfg rows s2.symbol s2.t0) ∧
      cfg.min_usd ≤ total_usd (symbolPrevWindow cfg rows s2.symbol s2.t0)) := by
  simp only [first_cross_events, List.mem_filterMap] at h2
  obtain ⟨row, _, hcs⟩ := h2
  rw [crossSignal_eq_some] at hcs
  obtain ⟨_, hprev, rfl⟩ := hcs
  rw [crossedPrev_eq_false_iff] at hprev
  exact hprev

/-- Witness for C3 (amended): in the aging-out scenario the signal at
time 0 precedes the signal at time 5, whose own previous window fails
the conjunction. -/
theorem signal_decross_witness :
    (⟨"S", 0, 2, 2⟩ : Signal) ∈ first_cross_events cfgC3 rowsC3 ∧
    ¬(cfgC3.min_owners ≤ owners_count (symbolPrevWindow cfgC3 rowsC3 "S" 5) ∧
      cfgC3.min_usd ≤ total_usd (symbolPrevWindow cfgC3 rowsC3 "S" 5)) :=
  ⟨by with_unfolding_all decide,
   signal_decross_at_later_signal cfgC3 rowsC3 ⟨"S", 0, 2, 2⟩ ⟨"S", 5, 2, 2⟩
     (by with_unfolding_all decide) (by with_unfolding_all decide) rfl (by decide)⟩

/-- Counterexample to C7: with one signal for symbol "B" at time 0 and
one for symbol "A" at time 100, the returned sequence is
`[A at 100, B at 0]` — grouped by symbol, not ascending in
`(event_time, symbol)`. -/
theorem signals_not_sorted_by_time_symbol :
    first_cross_events cfg7 rows7 = [⟨"A", 100, 1, 1⟩, ⟨"B", 0, 1, 1⟩] ∧
    ¬ List.Sorted sigTimeLe (first_cross_events cfg7 rows7) := by
  with_unfolding_all decide

/-- C7 (amended): the signal sequence returned by `first_cross_events`
is sorted ascending by the pair `(symbol, event_time)` — the frame is
sorted by `["symbol","_t"]` and the groupwise scan preserves that
order. -/
theorem signals_sorted_by_symbol_time (cfg : Config) (rows : List Row) :
    List.Sorted sigSymLe (first_cross_events cfg rows) := by
  have hsorted : List.Sorted rowLe (sortEvents (cleanRows cfg rows)) :=
    List.sorted_insertionSort rowLe (cleanRows cfg rows)
  simp only [first_cross_events]
  unfold List.Sorted
  rw [List.pairwise_filterMap]
  apply List.Pairwise.imp ?_ hsorted
  intro a b hab
  intro sa hsa sb hsb
  rw [Option.mem_def] at hsa hsb
  rw [crossSignal_eq_some] at hsa hsb
  obtain ⟨-, -, rfl⟩ := hsa
  obtain ⟨-, -, rfl⟩ := hsb
  show sigSymLeB _ _ = true
  rw [rowLe_iff] at hab
  simp only [sigSymLeB]
  rcases hab with h | ⟨h1, h2⟩
  · rw [h]; rfl
  · simp [h1, h2]

theorem date_le_getLastD {px : List Session}
    (hs : List.Sorted (fun a b : Session => a.session_date ≤ b.session_date) px)
    (x : Session) (hx : x ∈ px) :
    ∀ d : Session, x.session_date ≤ (px.getLastD d).session_date := by
  induction px with
  | nil => cases hx
  | cons p ps ih =>
    rw [List.sorted_cons] at hs
    intro d
    rw [List.getLastD_cons]
    rcases List.mem_cons.mp hx with rfl | hx'
    · rcases List.mem_cons.mp (List.getLastD_mem_cons ps x) with hgl | hgl
      · rw [hgl]
      · exact hs.1 _ hgl
    · exact ih hs.2 hx' p

/-- Counterexample to C4: a signal dated on the last session of its
price series produces no evaluation row at all — the report is empty,
the signal is not recorded as unevaluable. -/
theorem unevaluable_signal_omitted :
    (px4.getLastD dfltSession).session_date ≤ sig4.t0 ∧
    evalRows px4 [1] [sig4] = [] := by
  with_unfolding_all decide

/-- C4 (amended): when a signal's date is at or after the last session
of the price series, `next_trading_open` finds no session and the
evaluation loop silently skips the signal (`continue`): it contributes
no row to the report, instead of being recorded as unevaluable. -/
theorem no_tradable_session_skipped (px : List Session)
    (hs : List.Sorted (fun a b : Session => a.session_date ≤ b.session_date) px)
    (sig : Signal) (hd : (px.getLastD dfltSession).session_date ≤ sig.t0)
    (horizons : List Nat) (pre post : List Signal) :
    evalSignal px horizons sig = none ∧
    evalRows px horizons (pre ++ sig :: post) = evalRows px horizons (pre ++ post) := by
  have hnone : next_trading_open px sig.t0 = none := by
    rw [next_trading_open, List.findIdx?_eq_none_iff]
    intro x hx
    simp only [decide_eq_false_iff_not, not_lt]
    exact le_trans (date_le_getLastD hs x hx dfltSession) hd
  have hesig : evalSignal px horizons sig = none := by
    simp only [evalSignal, hnone]
  exact ⟨hesig, by simp [evalRows, List.filterMap_append, List.filterMap_cons, hesig]⟩

/-- Witness for C4 (amended): the day-11 signal against the two-session
series ending on day 11 is skipped. -/
theorem no_tradable_session_witness :
    evalSignal px4 [1] sig4 = none ∧
    evalRows px4 [1] ([] ++ sig4 :: []) = evalRows px4 [1] ([] ++ []) :=
  no_tradable_session_skipped px4 (by with_unfolding_all decide) sig4
    (by with_unfolding_all decide) [1] [] []

theorem returns_at_mem {px : List Session} {pos : Nat} {horizons : List Nat} {h : Nat}
    {o : Option ℚ} (hmem : (h, o) ∈ returns_at px pos horizons) :
    (pos + h < px.length ∧
      o = some ((px.getD (pos + h) dfltSession).adjClose /
        (px.getD pos dfltSession).openPrice - 1)) ∨
    (px.length ≤ pos + h ∧ o = none) := by
  rw [returns_at, List.mem_map] at hmem
  obtain ⟨h', _, heq⟩ := hmem
  by_cases hc : pos + h' < px.length
  · rw [if_pos hc] at heq
    cases heq
    left
    exact ⟨hc, rfl⟩
  · rw [if_neg hc] at heq
    cases heq
    right
    exact ⟨le_of_not_lt hc, rfl⟩

/-- C5: a horizon whose exit position is past the end of the series is
recorded as missing (`none`), never as zero; and the per-horizon
summary is computed over non-missing values only — a leading missing
value does not change it, it is "no data" exactly when every value is
missing, and its mean, hit-rate and sample size range over the
non-missing values. -/
theorem missing_horizon_and_aggregation (px : List Session) (pos : Nat) (horizons : List Nat)
    (h : Nat) (o : Option ℚ) (hmem : (h, o) ∈ returns_at px pos horizons)
    (hover : px.length ≤ pos + h) (vals : List (Option ℚ)) :
    o = none ∧
    summarize (none :: vals) = summarize vals ∧
    summarize vals = summarize ((vals.filterMap id).map some) ∧
    (summarize vals = none ↔ vals.filterMap id = []) ∧
    (∀ st : Summary, summarize vals = some st →
      st.n = (vals.filterMap id).length ∧
      st.mean = (vals.filterMap id).sum / ((vals.filterMap id).length : ℚ) ∧
      st.hit_rate = (((vals.filterMap id).filter (fun r => decide (0 < r))).length : ℚ) /
        ((vals.filterMap id).length : ℚ)) := by
  refine ⟨?_, ?_, ?_, ?_, ?_⟩
  · rcases returns_at_mem hmem with ⟨hlt, _⟩ | ⟨_, ho⟩
    · exact absurd hlt (not_lt.mpr hover)
    · exact ho
  · have hsame : (none :: vals).filterMap id = vals.filterMap id := by
      simp [List.filterMap_cons]
    simp only [summarize, hsame]
  · have hsame : ((vals.filterMap id).map some).filterMap id = vals.filterMap id := by
      rw [List.filterMap_map]
      simp
    simp only [summarize, hsame]
  · simp only [summarize]
    by_cases hv : (vals.filterMap id).length = 0
    · rw [if_pos hv]
      simp [List.length_eq_zero.mp hv]
    · rw [if_neg hv]
      rw [List.length_eq_zero] at hv
      simp [hv]
  · intro st hst
    simp only [summarize] at hst
    by_cases hv : (vals.filterMap id).length = 0
    · rw [if_pos hv] at hst
      cases hst
    · rw [if_neg hv] at hst
      rw [Option.some.injEq] at hst
      subst hst
      exact ⟨rfl, rfl, rfl⟩

/-- Witness for C5: horizon 10 from entry position 1 of the 3-session
series is missing, and a leading missing value leaves the summary of
`[none, some 1]` unchanged. -/
theorem missing_horizon_witness :
    spx.length ≤ 1 + 10 ∧
    summarize (none :: [none, some 1]) = summarize [none, some 1] :=
  ⟨by decide,
   (missing_horizon_and_aggregation spx 1 [1, 10] 10 none
     (by with_unfolding_all decide) (by decide) [none, some 1]).2.1⟩

/-- C6: every computed horizon return equals
`exit adjusted close / entry open - 1`, the net return subtracts the
flat `cost_bps/10000`, and with `cost_bps = 0` the net return equals
the raw return. -/
theorem return_formulas (px : List Session) (pos : Nat) (horizons : List Nat) (cost_bps : ℚ)
    (h : Nat) (o : Option ℚ) (hmem : (h, o) ∈ returns_at px pos horizons) :
    (∀ q : ℚ, o = some q →
      pos + h < px.length ∧
      q = (px.getD (pos + h) dfltSession).adjClose / (px.getD pos dfltSession).openPrice - 1) ∧
    netRet cost_bps o = o.map (fun r => r - cost_bps / 10000) ∧
    netRet 0 o = o := by
  refine ⟨?_, rfl, ?_⟩
  · intro q hq
    rcases returns_at_mem hmem with ⟨hlt, ho⟩ | ⟨_, ho⟩
    · rw [ho, Option.some.injEq] at hq
      exact ⟨hlt, hq.symm⟩
    · rw [ho] at hq
      cases hq
  · cases o with
    | none => rfl
    | some r => simp [netRet]

/-- Witness for C6: the horizon-1 return from entry position 1 of the
scenario series is `12/11 - 1`, and with zero cost the net return
equals it. -/
theorem return_formulas_witness :
    ((1 : ℚ)/11 = (spx.getD (1 + 1) dfltSession).adjClose /
      (spx.getD 1 dfltSession).openPrice - 1) ∧
    netRet 0 (some ((1 : ℚ)/11)) = some ((1 : ℚ)/11) :=
  ⟨((return_formulas spx 1 [1, 10] 0 1 (some (1/11))
      (by with_unfolding_all decide)).1 (1/11) rfl).2,
   (return_formulas spx 1 [1, 10] 0 1 (some (1/11))
      (by with_unfolding_all decide)).2.2⟩

/-- Counterexample to C2: for the scenario series and a signal dated
day 10, the entry session is position 1 (day 11), not position 0 (day
10 itself), and the horizon-1 return is `1/11`, not `11/10 - 1`;
horizon 10 is not computable. -/
theorem entry_session_scenario_counterexample :
    next_trading_open spx 10 ≠ some 0 ∧
    next_trading_open spx 10 = some 1 ∧
    returns_at spx 1 [1, 10] = [(1, some (1/11)), (10, none)] ∧
    ¬((1 : ℚ)/11 = 11/10 - 1) := by
  with_unfolding_all decide

/-- C2 (amended): the entry session is the first session strictly
after the signal's date — day 11 with open 11 — the horizon-1 raw
return is `12/11 - 1`, and the horizon-10 return is not computable. -/
theorem entry_session_scenario :
    next_trading_open spx 10 = some 1 ∧
    spx.getD 1 dfltSession = ⟨11, 11, 11⟩ ∧
    returns_at spx 1 [1, 10] = [(1, some (12/11 - 1)), (10, none)] := by
  with_unfolding_all decide

/-- C9: a Form 4 document naming `k >= 2` reporting owners whose only
purchase transaction has `s` shares at price `p` yields `k` records,
each carrying the full `s`, `p` and `amount_usd = s * p`, so the one
transaction contributes `k` times its notional to any downstream sum. -/
theorem form4_record_per_owner (doc : Form4Doc) (k : Nat) (tx : Form4Txn) (s p : ℚ)
    (hk : doc.owners.length = k) (h2 : 2 ≤ k)
    (htx : doc.txns.filter (fun t => isPurchaseCode t.code) = [tx])
    (hs : tx.shares = some s) (hp : tx.price = some p) :
    (parse_form4_xml doc).length = k ∧
    (∀ r ∈ parse_form4_xml doc, r.shares = s ∧ r.price = p ∧ r.amount_usd = s * p) ∧
    ((parse_form4_xml doc).map TradeRec.amount_usd).sum = (k : ℚ) * (s * p) := by
  have howners : doc.owners.isEmpty = false := by
    cases ho : doc.owners with
    | nil => rw [ho] at hk; simp at hk; omega
    | cons a l => rfl
  have hparse : parse_form4_xml doc = doc.owners.map (fun o =>
      ⟨doc.symbol, o, s, p, s * p, doc.has10b5, tx.txn_date⟩) := by
    simp only [parse_form4_xml, howners, Bool.false_eq_true, if_false, htx,
      List.flatMap_cons, List.flatMap_nil, List.append_nil, hs, hp, Option.getD_some]
  refine ⟨?_, ?_, ?_⟩
  · rw [hparse, List.length_map, hk]
  · rw [hparse]
    intro r hr
    rw [List.mem_map] at hr
    obtain ⟨o, _, rfl⟩ := hr
    exact ⟨rfl, rfl, rfl⟩
  · rw [hparse, List.map_map]
    have hconst : (TradeRec.amount_usd ∘ fun o =>
        (⟨doc.symbol, o, s, p, s * p, doc.has10b5, tx.txn_date⟩ : TradeRec)) =
        Function.const String (s * p) := rfl
    rw [hconst, List.map_const, List.sum_replicate, hk, nsmul_eq_mul]

/-- Witness for C9: the two-owner document with one purchase of 5
shares at price 3 yields two records totalling `2 * 15`. -/
theorem form4_record_per_owner_witness :
    (parse_form4_xml doc9).length = 2 ∧
    ((parse_form4_xml doc9).map TradeRec.amount_usd).sum = (2 : ℚ) * (5 * 3) :=
  ⟨(form4_record_per_owner doc9 2 ⟨"P", some 5, some 3, "d"⟩ 5 3 rfl (by decide)
      (by with_unfolding_all decide) rfl rfl).1,
   (form4_record_per_owner doc9 2 ⟨"P", some 5, some 3, "d"⟩ 5 3 rfl (by decide)
      (by with_unfolding_all decide) rfl rfl).2.2⟩

/-- C10: a row whose `amount_usd` cell is present but non-numeric
survives the null-drop (which runs before the numeric coercion turns
the cell into NaN); the resulting event lies in every window of its
symbol that contains its time, where its owner is still counted among
the distinct owners (raising the count by one exactly when no other
window event shares that owner) while it contributes nothing to the
window's total notional. -/
theorem nonnumeric_amount_semantics (cfg : Config) (rows : List Row) (r : Row)
    (sym own : String) (t : Int) (hr : r ∈ rows) (hsym : r.symbol = some sym)
    (hown : r.owner = some own) (ht : r.filing_dt = some t)
    (ha : r.amount_usd = some NumCell.text) (h5 : r.tenb5 = false)
    (t0 : Int) (hlo : t0 - cfg.window_days ≤ t) (hhi : t ≤ t0) :
    Event.mk sym own t none ∈ cleanRows cfg rows ∧
    Event.mk sym own t none ∈ symbolWindow cfg rows sym t0 ∧
    own ∈ (symbolWindow cfg rows sym t0).map Event.owner ∧
    total_usd (symbolWindow cfg rows sym t0) =
      total_usd ((symbolWindow cfg rows sym t0).erase (Event.mk sym own t none)) ∧
    owners_count (symbolWindow cfg rows sym t0) =
      (if own ∈ ((symbolWindow cfg rows sym t0).erase (Event.mk sym own t none)).map Event.owner
       then owners_count ((symbolWindow cfg rows sym t0).erase (Event.mk sym own t none))
       else owners_count ((symbolWindow cfg rows sym t0).erase (Event.mk sym own t none)) + 1) := by
  have hclean : Event.mk sym own t none ∈ cleanRows cfg rows := by
    simp only [cleanRows]
    rw [List.mem_filterMap]
    refine ⟨r, ?_, ?_⟩
    · by_cases hex : cfg.exclude_10b5
      · rw [if_pos hex, List.mem_filter]
        exact ⟨hr, by rw [h5]; rfl⟩
      · rw [if_neg hex]
        exact hr
    · rw [hsym, ht, ha, hown]
      rfl
  have hmemw : Event.mk sym own t none ∈ symbolWindow cfg rows sym t0 := by
    rw [symbolWindow, windowEvents, List.mem_filter, symEvents, List.mem_filter,
      sortEvents, List.mem_insertionSort]
    refine ⟨⟨hclean, by simp⟩, ?_⟩
    simp only [Bool.and_eq_true, decide_eq_true_eq]
    exact ⟨hlo, hhi⟩
  have hperm : (symbolWindow cfg rows sym t0).Perm
      (Event.mk sym own t none :: (symbolWindow cfg rows sym t0).erase (Event.mk sym own t none)) :=
    List.perm_cons_erase hmemw
  refine ⟨hclean, hmemw, List.mem_map.mpr ⟨_, hmemw, rfl⟩, ?_, ?_⟩
  · have h1 : total_usd (symbolWindow cfg rows sym t0) =
        ((Event.mk sym own t none ::
          (symbolWindow cfg rows sym t0).erase (Event.mk sym own t none)).map
            (fun e => e.amount.getD 0)).sum :=
      (hperm.map _).sum_eq
    rw [h1]
    simp [total_usd]
  · have hfin : ((symbolWindow cfg rows sym t0).map Event.owner).toFinset =
        insert own (((symbolWindow cfg rows sym t0).erase
          (Event.mk sym own t none)).map Event.owner).toFinset := by
      rw [List.toFinset_eq_of_perm _ _ (hperm.map Event.owner), List.map_cons,
        List.toFinset_cons]
    rw [owners_count, owners_count, hfin]
    by_cases hmem2 : own ∈ ((symbolWindow cfg rows sym t0).erase
        (Event.mk sym own t none)).map Event.owner
    · rw [if_pos hmem2, Finset.card_insert_of_mem (List.mem_toFinset.mpr hmem2)]
    · rw [if_neg hmem2, Finset.card_insert_of_not_mem (fun hc => hmem2 (List.mem_toFinset.mp hc))]

/-- Witness for C10: the text-amount row of the two-row frame survives,
sits in the day-0 window, its owner "u" is counted (the other event's
owner is "v"), and the window total ignores it. -/
theorem nonnumeric_amount_witness :
    Row.mk (some "A") (some "u") (some 0) (some NumCell.text) false ∈ rows10 ∧
    (Event.mk "A" "u" 0 none ∈ cleanRows cfgA rows10 ∧
     Event.mk "A" "u" 0 none ∈ symbolWindow cfgA rows10 "A" 0 ∧
     "u" ∈ (symbolWindow cfgA rows10 "A" 0).map Event.owner ∧
     total_usd (symbolWindow cfgA rows10 "A" 0) =
       total_usd ((symbolWindow cfgA rows10 "A" 0).erase (Event.mk "A" "u" 0 none)) ∧
     owners_count (symbolWindow cfgA rows10 "A" 0) =
       (if "u" ∈ ((symbolWindow cfgA rows10 "A" 0).erase (Event.mk "A" "u" 0 none)).map Event.owner
        then owners_count ((symbolWindow cfgA rows10 "A" 0).erase (Event.mk "A" "u" 0 none))
        else owners_count ((symbolWindow cfgA rows10 "A" 0).erase (Event.mk "A" "u" 0 none)) + 1)) :=
  ⟨by decide,
   nonnumeric_amount_semantics cfgA rows10 (Row.mk (some "A") (some "u") (some 0)
       (some NumCell.text) false) "A" "u" 0 (by decide) rfl rfl rfl rfl rfl 0
     (by decide) (by decide)⟩
